import Mathlib

/-!
Verification of the howrs face-authentication core.

This file gives a shallow embedding, over the rationals, of the numeric and
control-flow core of the howrs repository (crates `howrs` and `howrs-vision`),
and proves or refutes the specification claims about it.

Modelling conventions:
* `f32` values are modelled as `ℚ`; machine arithmetic (`+`, `*`, `/`, `max`,
  `min`, comparisons) becomes exact rational arithmetic.
* The transcendental helpers that the aligner takes from the float library
  (`sqrt`, `atan2`, `sin`, `cos`) are abstracted as an explicit record of
  function parameters (`RealOps`); no claim here depends on their values.
* Tensors handed over by the inference collaborator are total index functions
  `ℕ → ℚ`; the shape checks of `parse_yunet_outputs` are therefore modelled as
  already satisfied.
* Fallible Rust functions returning `Result` are modelled with `Except`,
  `Option`, or explicit result inductives.
-/

namespace Howrs

/-! ## Matcher (`howrs-vision/src/face.rs::match_embedding`, `src/matcher.rs`) -/

/-- Dot product as computed in `match_embedding`: zip the two vectors
(the zip stops at the shorter one), multiply componentwise and sum. -/
def dotProduct (a b : List ℚ) : ℚ :=
  ((a.zip b).map fun p => p.1 * p.2).sum

/-- Model of `face::match_embedding`: dot product over
`a.iter().zip(b.iter()).take(len)` with `len = min (length a) (length b)`,
then `dot.max(-1.0).min(1.0)`. -/
def match_embedding (a b : List ℚ) : ℚ :=
  let len := min a.length b.length
  let dot := (((a.zip b).take len).map fun p => p.1 * p.2).sum
  min (max dot (-1)) 1

/-- Clamp to an interval, written the way the specification states it:
`clamp(x, lo, hi)`. -/
def clampSpec (lo hi x : ℚ) : ℚ :=
  min (max x lo) hi

/-- A stored face record (`src/storage.rs::FaceRecord`): an identity plus the
embedding read back as a plain float sequence. -/
structure FaceRecord where
  id : String
  embedding : List ℚ

/-- Model of `src/matcher.rs::best_score`: map every record to its similarity
with the probe and fold with
`match acc { Some(best) if best > s => Some(best), _ => Some(s) }`
starting from `None`. -/
def best_score (records : List FaceRecord) (probe : List ℚ) : Option ℚ :=
  (records.map fun r => match_embedding r.embedding probe).foldl
    (fun acc s =>
      match acc with
      | some best => if best > s then some best else some s
      | none => some s)
    none

/-- The fold step of `best_score` applied to an already-`some` accumulator is
exactly the binary maximum. -/
theorem best_score_step (b s : ℚ) :
    (match some b with
      | some best => if best > s then some best else some s
      | none => some s) = some (max b s) := by
  by_cases h : b > s
  · simp only [if_pos h]
    exact congrArg some (max_eq_left (le_of_lt h)).symm
  · simp only [if_neg h]
    exact congrArg some (max_eq_right (le_of_not_lt h)).symm

theorem best_score_fold_some (l : List ℚ) : ∀ b : ℚ,
    (l.foldl
      (fun acc s =>
        match acc with
        | some best => if best > s then some best else some s
        | none => some s)
      (some b)) = some (l.foldl max b) := by
  induction l with
  | nil => intro b; rfl
  | cons s l ih =>
      intro b
      rw [List.foldl_cons, best_score_step, ih, List.foldl_cons]

theorem le_foldl_max_init (l : List ℚ) : ∀ b : ℚ, b ≤ l.foldl max b := by
  induction l with
  | nil => intro b; exact le_refl b
  | cons s l ih =>
      intro b
      exact le_trans (le_max_left b s) (ih (max b s))

theorem foldl_max_mem (l : List ℚ) : ∀ b : ℚ, l.foldl max b ∈ b :: l := by
  induction l with
  | nil => intro b; exact List.mem_singleton.mpr rfl
  | cons s l ih =>
      intro b
      rw [List.foldl_cons]
      rcases List.mem_cons.mp (ih (max b s)) with h | h
      · rcases max_choice b s with h2 | h2
        · exact List.mem_cons.mpr (Or.inl (h.trans h2))
        · exact List.mem_cons.mpr (Or.inr (List.mem_cons.mpr (Or.inl (h.trans h2))))
      · exact List.mem_cons.mpr (Or.inr (List.mem_cons.mpr (Or.inr h)))

theorem foldl_max_ge (l : List ℚ) : ∀ b x : ℚ, x ∈ b :: l → x ≤ l.foldl max b := by
  induction l with
  | nil =>
      intro b x hx
      rw [List.mem_singleton.mp hx]
      exact le_refl b
  | cons s l ih =>
      intro b x hx
      rw [List.foldl_cons]
      rcases List.mem_cons.mp hx with h | h
      · rw [h]
        exact le_trans (le_max_left b s) (le_foldl_max_init l (max b s))
      · rcases List.mem_cons.mp h with h2 | h2
        · rw [h2]
          exact le_trans (le_max_right b s) (le_foldl_max_init l (max b s))
        · exact ih (max b s) x (List.mem_cons.mpr (Or.inr h2))

/-- The zipped product list truncated at the shorter length is the zipped
product list itself. -/
theorem zip_take_min (a b : List ℚ) :
    (a.zip b).take (min a.length b.length) = a.zip b := by
  rw [← List.length_zip]
  exact List.take_length (a.zip b)

/-- `best_score` on a non-empty record set returns the maximum similarity:
a value attained by some record and an upper bound for all of them. -/
theorem best_score_cons_max (r : FaceRecord) (rs : List FaceRecord) (probe : List ℚ) :
    ∃ m : ℚ,
      best_score (r :: rs) probe = some m ∧
      m ∈ (r :: rs).map (fun x => match_embedding x.embedding probe) ∧
      ∀ s ∈ (r :: rs).map (fun x => match_embedding x.embedding probe), s ≤ m := by
  refine ⟨(rs.map fun x => match_embedding x.embedding probe).foldl max
    (match_embedding r.embedding probe), ?_, ?_, ?_⟩
  · show ((r :: rs).map fun x => match_embedding x.embedding probe).foldl _ none = _
    rw [List.map_cons, List.foldl_cons]
    exact best_score_fold_some _ _
  · rw [List.map_cons]
    exact foldl_max_mem _ _
  · intro s hs
    rw [List.map_cons] at hs
    exact foldl_max_ge _ _ s hs

/-- C8: `best_score` over the empty record set returns `none` ("no match"),
and over any non-empty record set it returns `some` of the maximum (never the
minimum) similarity between the probe and the embedding of a record. -/
theorem best_score_is_max :
    (∀ probe : List ℚ, best_score [] probe = none) ∧
    (∀ (r : FaceRecord) (rs : List FaceRecord) (probe : List ℚ), ∃ m : ℚ,
      best_score (r :: rs) probe = some m ∧
      m ∈ (r :: rs).map (fun x => match_embedding x.embedding probe) ∧
      ∀ s ∈ (r :: rs).map (fun x => match_embedding x.embedding probe), s ≤ m) :=
  ⟨fun _ => rfl, best_score_cons_max⟩

/-- C8 witness: `best_score` on a concrete two-record set picks the larger
similarity. -/
theorem best_score_is_max_witness :
    ∃ m : ℚ,
      best_score [⟨"a", [1, 0]⟩, ⟨"b", [0, 1]⟩] [0, 1] = some m ∧
      m ∈ ([⟨"a", [1, 0]⟩, ⟨"b", [0, 1]⟩] : List FaceRecord).map
        (fun x => match_embedding x.embedding [0, 1]) ∧
      ∀ s ∈ ([⟨"a", [1, 0]⟩, ⟨"b", [0, 1]⟩] : List FaceRecord).map
        (fun x => match_embedding x.embedding [0, 1]), s ≤ m :=
  best_score_is_max.2 ⟨"a", [1, 0]⟩ [⟨"b", [0, 1]⟩] [0, 1]

/-- Unfolding lemma: the matcher is the clamped full dot product. -/
theorem match_embedding_eq_clamp (a b : List ℚ) :
    match_embedding a b = min (max (dotProduct a b) (-1)) 1 := by
  show min (max ((((a.zip b).take (min a.length b.length)).map fun p => p.1 * p.2).sum) (-1)) 1 = _
  rw [zip_take_min]
  rfl

/-- The dot product of `match_embedding` is symmetric. -/
theorem dotProduct_comm (a b : List ℚ) : dotProduct a b = dotProduct b a := by
  unfold dotProduct
  rw [← List.zip_swap a b, List.map_map]
  refine congrArg List.sum (List.map_congr_left ?_)
  intro p _
  exact mul_comm p.1 p.2

/-- The matcher result always lies in the interval `[-1, 1]`. -/
theorem match_embedding_bounds (a b : List ℚ) :
    -1 ≤ match_embedding a b ∧ match_embedding a b ≤ 1 := by
  rw [match_embedding_eq_clamp]
  exact ⟨le_min (le_max_right _ _) (by norm_num), min_le_right _ _⟩

/-- C9: the matcher equals `clamp(dot(a,b), -1, 1)`, is symmetric, returns `1`
on any exactly normalized vector matched with itself, and always lies in
`[-1, 1]`. -/
theorem match_embedding_clamp_props :
    (∀ a b : List ℚ, match_embedding a b = clampSpec (-1) 1 (dotProduct a b)) ∧
    (∀ a b : List ℚ, match_embedding a b = match_embedding b a) ∧
    (∀ a : List ℚ, dotProduct a a = 1 → match_embedding a a = 1) ∧
    (∀ a b : List ℚ, -1 ≤ match_embedding a b ∧ match_embedding a b ≤ 1) := by
  refine ⟨?_, ?_, ?_, match_embedding_bounds⟩
  · intro a b
    rw [match_embedding_eq_clamp]
    rfl
  · intro a b
    rw [match_embedding_eq_clamp, match_embedding_eq_clamp, dotProduct_comm]
  · intro a h
    rw [match_embedding_eq_clamp, h]
    norm_num

/-- C9 witness: the exactly normalized vector `(3/5, 4/5)` matched against
itself gives similarity `1`. -/
theorem match_embedding_clamp_props_witness :
    dotProduct [3/5, 4/5] [3/5, 4/5] = 1 ∧
    match_embedding [3/5, 4/5] [3/5, 4/5] = 1 := by
  have h : dotProduct [3/5, 4/5] [3/5, 4/5] = 1 := by
    unfold dotProduct
    simp [List.zip]
    norm_num
  exact ⟨h, match_embedding_clamp_props.2.2.1 [3/5, 4/5] h⟩

/-- C10: on vectors of differing lengths the matcher is total: it sums the
products of only the first `min (length a) (length b)` components, clamps as
usual, and `best_score` over any non-empty record set returns a value in
`[-1, 1]` regardless of the stored embedding lengths. -/
theorem match_embedding_dimension_mismatch :
    (∀ a b : List ℚ, match_embedding a b =
      clampSpec (-1) 1 (dotProduct
        (a.take (min a.length b.length)) (b.take (min a.length b.length)))) ∧
    (∀ (records : List FaceRecord) (probe : List ℚ), records ≠ [] →
      ∃ s : ℚ, best_score records probe = some s ∧ -1 ≤ s ∧ s ≤ 1) := by
  constructor
  · intro a b
    have hz : (a.take (min a.length b.length)).zip (b.take (min a.length b.length)) =
        a.zip b := by
      rw [List.zip_eq_zipWith, ← List.take_zipWith, ← List.zip_eq_zipWith]
      exact zip_take_min a b
    rw [match_embedding_eq_clamp]
    unfold dotProduct clampSpec
    rw [hz]
  · intro records probe h
    match records with
    | [] => exact absurd rfl h
    | r :: rs =>
        obtain ⟨m, hm, hmem, _⟩ := best_score_cons_max r rs probe
        obtain ⟨x, _, hxm⟩ := List.mem_map.mp hmem
        refine ⟨m, hm, ?_, ?_⟩
        · exact hxm ▸ (match_embedding_bounds x.embedding probe).1
        · exact hxm ▸ (match_embedding_bounds x.embedding probe).2

/-- C10 witness: a probe of length 1 against a stored embedding of length 3
still yields a clamped score, and `best_score` still returns `some`. -/
theorem match_embedding_dimension_mismatch_witness :
    (match_embedding [1, 0, 0] [1/2] =
      clampSpec (-1) 1 (dotProduct
        (([1, 0, 0] : List ℚ).take (min ([1, 0, 0] : List ℚ).length ([1/2] : List ℚ).length))
        (([1/2] : List ℚ).take (min ([1, 0, 0] : List ℚ).length ([1/2] : List ℚ).length)))) ∧
    (∃ s : ℚ, best_score [⟨"r", [1, 0, 0]⟩] [1/2] = some s ∧ -1 ≤ s ∧ s ≤ 1) :=
  ⟨match_embedding_dimension_mismatch.1 [1, 0, 0] [1/2],
   match_embedding_dimension_mismatch.2 [⟨"r", [1, 0, 0]⟩] [1/2] (by simp)⟩

/-! ## Suppressor (`howrs-vision/src/face.rs::nms`, `compute_iou`) -/

/-- An axis-aligned box `(x, y, w, h)` as stored in `Detection::bbox`. -/
structure Box where
  x : ℚ
  y : ℚ
  w : ℚ
  h : ℚ
deriving DecidableEq

/-- Model of `face::Detection`: bbox, score and five landmark points in
original-image pixel space. -/
structure Detection where
  bbox : Box
  score : ℚ
  landmarks : List (ℚ × ℚ)
deriving DecidableEq

/-- Model of `face::compute_iou`: intersection over union of two boxes,
zero when they do not overlap. -/
def compute_iou (a b : Box) : ℚ :=
  let x1 := max a.x b.x
  let y1 := max a.y b.y
  let x2 := min (a.x + a.w) (b.x + b.w)
  let y2 := min (a.y + a.h) (b.y + b.h)
  if x2 ≤ x1 ∨ y2 ≤ y1 then 0
  else
    let inter := (x2 - x1) * (y2 - y1)
    let areaA := a.w * a.h
    let areaB := b.w * b.h
    inter / (areaA + areaB - inter)

/-- The keep/suppress sweep of `face::nms` on the already sorted list: keep the
first undecided detection and drop every later undecided detection whose IoU
with it exceeds the threshold. This is the list form of the
`suppressed` boolean-array loop of the source — marking a later index suppressed and then
skipping it is filtering it out of the remaining candidates. -/
def nmsKeep (iouThreshold : ℚ) : List Detection → List Detection
  | [] => []
  | d :: rest =>
      d :: nmsKeep iouThreshold
        (rest.filter fun e => decide (compute_iou d.bbox e.bbox ≤ iouThreshold))
termination_by l => l.length
decreasing_by
  simp only [List.length_cons]
  exact Nat.lt_succ_of_le (List.length_filter_le _ _)

/-- Model of `face::nms`: return early on the empty list, otherwise stable-sort
descending by score and run the keep/suppress sweep. -/
def nms (detections : List Detection) (iouThreshold : ℚ) : List Detection :=
  if detections.isEmpty then []
  else
    nmsKeep iouThreshold
      (detections.mergeSort fun a b => decide (b.score ≤ a.score))

/-- Model of the call site in `face::detect_faces`: NMS is applied only when
`nms_threshold < 1.0`. -/
def applyNms (nmsThreshold : ℚ) (detections : List Detection) : List Detection :=
  if nmsThreshold < 1 then nms detections nmsThreshold else detections

/-- The keep/suppress sweep returns a sublist of its input. -/
theorem nmsKeep_sublist (iouThreshold : ℚ) :
    (l : List Detection) → (nmsKeep iouThreshold l).Sublist l
  | [] => by
      rw [nmsKeep]
  | d :: rest => by
      rw [nmsKeep]
      exact List.Sublist.cons₂ d
        ((nmsKeep_sublist iouThreshold _).trans (List.filter_sublist rest))
termination_by l => l.length
decreasing_by
  simp only [List.length_cons]
  exact Nat.lt_succ_of_le (List.length_filter_le _ _)

/-- The keep/suppress sweep preserves any pairwise invariant of its input, in
particular descending score order. -/
theorem nmsKeep_pairwise (iouThreshold : ℚ) (R : Detection → Detection → Prop) :
    (l : List Detection) → l.Pairwise R → (nmsKeep iouThreshold l).Pairwise R
  | [], _ => by
      rw [nmsKeep]
      exact List.Pairwise.nil
  | d :: rest, h => by
      rw [nmsKeep]
      rcases List.pairwise_cons.mp h with ⟨hd, hrest⟩
      refine List.pairwise_cons.mpr ⟨?_, ?_⟩
      · intro e he
        exact hd e (((nmsKeep_sublist iouThreshold _).trans
          (List.filter_sublist rest)).subset he)
      · exact nmsKeep_pairwise iouThreshold R _
          (List.Pairwise.sublist (List.filter_sublist rest) hrest)
termination_by l => l.length
decreasing_by
  simp only [List.length_cons]
  exact Nat.lt_succ_of_le (List.length_filter_le _ _)

/-- Descending-score order as a pairwise relation. -/
def SortedByScoreDesc (l : List Detection) : Prop :=
  l.Pairwise fun a b => b.score ≤ a.score

/-- The descending stable sort used by `nms` produces a descending list. -/
theorem mergeSort_desc_sorted (l : List Detection) :
    SortedByScoreDesc (l.mergeSort fun a b => decide (b.score ≤ a.score)) := by
  have h := @List.sorted_mergeSort Detection
    (fun a b : Detection => decide (b.score ≤ a.score))
    (fun a b c hab hbc => by
      simp only [decide_eq_true_eq] at *
      exact le_trans hbc hab)
    (fun a b => by
      simp only [Bool.or_eq_true, decide_eq_true_eq]
      exact le_total b.score a.score)
    l
  exact h.imp fun hab => of_decide_eq_true hab

/-- C7: with IoU threshold at least 1 the suppressor call site is a
pass-through (every input detection is returned untouched); otherwise `nms`
returns at most as many detections as it receives, in descending score order. -/
theorem nms_props :
    (∀ (detections : List Detection) (τ : ℚ), 1 ≤ τ →
      applyNms τ detections = detections) ∧
    (∀ (detections : List Detection) (τ : ℚ),
      (nms detections τ).length ≤ detections.length) ∧
    (∀ (detections : List Detection) (τ : ℚ), SortedByScoreDesc (nms detections τ)) := by
  refine ⟨?_, ?_, ?_⟩
  · intro detections τ h
    unfold applyNms
    rw [if_neg (not_lt.mpr h)]
  · intro detections τ
    unfold nms
    by_cases h : detections.isEmpty
    · rw [if_pos h]
      exact Nat.zero_le _
    · rw [if_neg h]
      calc (nmsKeep τ (detections.mergeSort fun a b => decide (b.score ≤ a.score))).length
          ≤ (detections.mergeSort fun a b => decide (b.score ≤ a.score)).length :=
            (nmsKeep_sublist τ _).length_le
        _ = detections.length := List.length_mergeSort _
  · intro detections τ
    unfold nms
    by_cases h : detections.isEmpty
    · rw [if_pos h]
      exact List.Pairwise.nil
    · rw [if_neg h]
      exact nmsKeep_pairwise τ _ _ (mergeSort_desc_sorted detections)

/-- C7 witness: with threshold 1 two heavily overlapping boxes pass through
untouched, and with threshold 1/2 the suppressor output on the same input is
no longer and stays descending. -/
theorem nms_props_witness :
    (applyNms 1 [⟨⟨0, 0, 10, 10⟩, 9/10, []⟩, ⟨⟨1, 1, 10, 10⟩, 8/10, []⟩] =
      [⟨⟨0, 0, 10, 10⟩, 9/10, []⟩, ⟨⟨1, 1, 10, 10⟩, 8/10, []⟩]) ∧
    (nms [⟨⟨0, 0, 10, 10⟩, 9/10, []⟩, ⟨⟨1, 1, 10, 10⟩, 8/10, []⟩] (1/2)).length ≤ 2 ∧
    SortedByScoreDesc (nms [⟨⟨0, 0, 10, 10⟩, 9/10, []⟩, ⟨⟨1, 1, 10, 10⟩, 8/10, []⟩] (1/2)) :=
  ⟨nms_props.1 _ 1 (le_refl 1),
   nms_props.2.1 [⟨⟨0, 0, 10, 10⟩, 9/10, []⟩, ⟨⟨1, 1, 10, 10⟩, 8/10, []⟩] (1/2),
   nms_props.2.2 [⟨⟨0, 0, 10, 10⟩, 9/10, []⟩, ⟨⟨1, 1, 10, 10⟩, 8/10, []⟩] (1/2)⟩

/-! ## Detection decoder (`howrs-vision/src/yunet.rs`)

Tensors delivered by the inference collaborator are modelled as total index
functions: per-scale scores `ℕ → ℚ` (location index) and per-scale bbox and
landmark predictions `ℕ → ℕ → ℚ` (location index, channel). The exact shape
and count validation of `parse_yunet_outputs` is therefore modelled as already
satisfied. The sigmoid `1 / (1 + exp(-x))` is not rational, so the scalar
activation is abstracted as an arbitrary function parameter `sigma`; no claim
below depends on its values. -/

/-- The three detection strides, `yunet::STRIDES`. -/
def STRIDES : Fin 3 → ℕ := ![8, 16, 32]

/-- Model of `yunet::RawDetection`: bbox and landmarks normalized to the
padded square canvas, plus the (post-sigmoid) score. -/
structure RawDetection where
  bbox : Box
  score : ℚ
  landmarks : List (ℚ × ℚ)
deriving DecidableEq

/-- Score combination step of `yunet::parse_yunet_outputs` (lines 208-212):
raw classification and objectness are multiplied elementwise, before any
activation is applied. -/
def combineScores (clsRaw obj : ℕ → ℚ) : ℕ → ℚ :=
  fun idx => clsRaw idx * obj idx

/-- Model of `yunet::apply_sigmoid_to_scores`: the scalar activation is mapped
over every location of every score map. -/
def apply_sigmoid_to_scores (sigma : ℚ → ℚ) (scores : ℕ → ℚ) : ℕ → ℚ :=
  fun idx => sigma (scores idx)

/-- The score maps `detect_faces` hands to `decode_detections`
(`face.rs` lines 97-101): parse (elementwise multiply), then sigmoid. -/
def detectionScores (sigma : ℚ → ℚ) (clsRaw obj : Fin 3 → ℕ → ℚ) : Fin 3 → ℕ → ℚ :=
  fun k => apply_sigmoid_to_scores sigma (combineScores (clsRaw k) (obj k))

/-- The decoded detection produced by the loop body of
`yunet::decode_detections` for grid cell `(row i, col j)`: anchor-free decoding
with no exponential and no anchor priors, all coordinates normalized by the
input size. -/
def decodedAt (stride : ℕ) (scores : ℕ → ℚ) (bboxes : ℕ → ℕ → ℚ)
    (landmarks : ℕ → ℕ → ℚ) (inputSize featureSize i j : ℕ) : RawDetection :=
  let idx := i * featureSize + j
  let dx := bboxes idx 0
  let dy := bboxes idx 1
  let dw := bboxes idx 2
  let dh := bboxes idx 3
  let cxPx := ((j : ℚ) + dx) * stride
  let cyPx := ((i : ℚ) + dy) * stride
  let wPx := dw * stride
  let hPx := dh * stride
  let cx := cxPx / inputSize
  let cy := cyPx / inputSize
  let w := wPx / inputSize
  let h := hPx / inputSize
  let x := cx - w / 2
  let y := cy - h / 2
  let lms := (List.range 5).map fun kp =>
    let lmDx := landmarks idx (kp * 2)
    let lmDy := landmarks idx (kp * 2 + 1)
    let lmXPx := ((j : ℚ) + lmDx) * stride
    let lmYPx := ((i : ℚ) + lmDy) * stride
    (lmXPx / inputSize, lmYPx / inputSize)
  { bbox := ⟨x, y, w, h⟩, score := scores idx, landmarks := lms }

/-- Model of the per-scale loop of `yunet::decode_detections`: every grid cell
whose score is below the threshold is skipped (`continue`), every other cell is
decoded by the loop body `decodedAt`. -/
def decode_scale (stride : ℕ) (scores : ℕ → ℚ) (bboxes : ℕ → ℕ → ℚ)
    (landmarks : ℕ → ℕ → ℚ) (scoreThreshold : ℚ) (inputSize : ℕ) :
    List RawDetection :=
  (List.range (inputSize / stride)).flatMap fun i =>
    (List.range (inputSize / stride)).filterMap fun j =>
      if scores (i * (inputSize / stride) + j) < scoreThreshold then none
      else some (decodedAt stride scores bboxes landmarks inputSize
        (inputSize / stride) i j)

/-- Model of `yunet::decode_detections`: concatenate the decoded detections of
the three scales, in stride order. -/
def decode_detections (clsScores : Fin 3 → ℕ → ℚ) (bboxPreds : Fin 3 → ℕ → ℕ → ℚ)
    (landmarkPreds : Fin 3 → ℕ → ℕ → ℚ) (scoreThreshold : ℚ) (inputSize : ℕ) :
    List RawDetection :=
  (List.finRange 3).flatMap fun k =>
    decode_scale (STRIDES k) (clsScores k) (bboxPreds k) (landmarkPreds k)
      scoreThreshold inputSize

/-- Evaluation helper: a `filterMap` over `List.range` in which every index
yields `none` produces the empty list. -/
theorem filterMap_range_eq_nil {β : Type} (f : ℕ → Option β) (n : ℕ)
    (h : ∀ j, j < n → f j = none) : (List.range n).filterMap f = [] := by
  rw [List.filterMap_eq_nil_iff]
  intro a ha
  exact h a (List.mem_range.mp ha)

/-- Evaluation helper: a `filterMap` over `List.range` in which exactly one
index yields `some` produces that singleton. -/
theorem filterMap_range_single {β : Type} (f : ℕ → Option β) (n j0 : ℕ) (d : β)
    (hj : j0 < n) (h0 : f j0 = some d)
    (h : ∀ j, j < n → j ≠ j0 → f j = none) :
    (List.range n).filterMap f = [d] := by
  induction n with
  | zero => omega
  | succ n ih =>
      rw [List.range_succ, List.filterMap_append]
      rcases Nat.lt_or_ge j0 n with h1 | h1
      · rw [ih h1 (fun j hjn hne => h j (Nat.lt_succ_of_lt hjn) hne)]
        have hn : f n = none := h n (Nat.lt_succ_self n) (by omega)
        simp [hn]
      · have hj0 : j0 = n := by omega
        subst hj0
        rw [filterMap_range_eq_nil f j0
          (fun j hjn => h j (Nat.lt_succ_of_lt hjn) (by omega))]
        simp [h0]

/-- Evaluation helper: a `flatMap` over `List.range` in which every index
yields `[]` produces the empty list. -/
theorem flatMap_range_eq_nil {β : Type} (g : ℕ → List β) (n : ℕ)
    (h : ∀ i, i < n → g i = []) : (List.range n).flatMap g = [] := by
  induction n with
  | zero => rfl
  | succ n ih =>
      rw [List.range_succ, List.flatMap_append,
        ih (fun i hi => h i (Nat.lt_succ_of_lt hi))]
      simp [h n (Nat.lt_succ_self n)]

/-- Evaluation helper: a `flatMap` over `List.range` in which exactly one index
yields a non-empty list produces that list. -/
theorem flatMap_range_single {β : Type} (g : ℕ → List β) (n i0 : ℕ) (out : List β)
    (hi : i0 < n) (h0 : g i0 = out)
    (h : ∀ i, i < n → i ≠ i0 → g i = []) :
    (List.range n).flatMap g = out := by
  induction n with
  | zero => omega
  | succ n ih =>
      rw [List.range_succ, List.flatMap_append]
      rcases Nat.lt_or_ge i0 n with h1 | h1
      · rw [ih h1 (fun i hin hne => h i (Nat.lt_succ_of_lt hin) hne)]
        have hn : g n = [] := h n (Nat.lt_succ_self n) (by omega)
        simp [hn]
      · have hi0 : i0 = n := by omega
        subst hi0
        rw [flatMap_range_eq_nil g i0
          (fun i hin => h i (Nat.lt_succ_of_lt hin) (by omega))]
        simp [h0]

/-- C1: the score used for the threshold comparison is the sigmoid of the
product `classification[loc] * objectness[loc]` — one activation applied after
the multiply — and every detection that `decode_detections` emits from these
score maps carries exactly such a value, above threshold. -/
theorem score_fusion_single_sigmoid :
    (∀ (sigma : ℚ → ℚ) (clsRaw obj : Fin 3 → ℕ → ℚ) (k : Fin 3) (idx : ℕ),
      detectionScores sigma clsRaw obj k idx = sigma (clsRaw k idx * obj k idx)) ∧
    (∀ (sigma : ℚ → ℚ) (clsRaw obj : Fin 3 → ℕ → ℚ)
      (bboxPreds landmarkPreds : Fin 3 → ℕ → ℕ → ℚ) (thr : ℚ) (S : ℕ)
      (d : RawDetection),
      d ∈ decode_detections (detectionScores sigma clsRaw obj)
        bboxPreds landmarkPreds thr S →
      ∃ (k : Fin 3) (idx : ℕ),
        d.score = sigma (clsRaw k idx * obj k idx) ∧ thr ≤ d.score) := by
  constructor
  · intro sigma clsRaw obj k idx
    rfl
  · intro sigma clsRaw obj bboxPreds landmarkPreds thr S d hd
    simp only [decode_detections, decode_scale, List.mem_flatMap,
      List.mem_filterMap, List.mem_range] at hd
    obtain ⟨k, -, i, hi, j, hj, hsome⟩ := hd
    by_cases hlt : detectionScores sigma clsRaw obj k (i * (S / STRIDES k) + j) < thr
    · rw [if_pos hlt] at hsome
      exact absurd hsome (Option.noConfusion)
    · rw [if_neg hlt] at hsome
      refine ⟨k, i * (S / STRIDES k) + j, ?_, ?_⟩
      · rw [← Option.some_inj.mp hsome]
        rfl
      · rw [← Option.some_inj.mp hsome]
        exact not_lt.mp hlt


/-- Evaluation helper: a scale whose scores are all below the threshold decodes
to no detections. -/
theorem decode_scale_eq_nil (stride : ℕ) (scores : ℕ → ℚ) (bboxes landmarks : ℕ → ℕ → ℚ)
    (thr : ℚ) (S : ℕ) (h : ∀ idx, scores idx < thr) :
    decode_scale stride scores bboxes landmarks thr S = [] := by
  unfold decode_scale
  refine flatMap_range_eq_nil _ _ fun i hi => filterMap_range_eq_nil _ _ fun j hj => ?_
  exact if_pos (h _)

/-- Evaluation helper: a scale with exactly one above-threshold cell decodes to
exactly the detection of that cell. -/
theorem decode_scale_single (stride : ℕ) (scores : ℕ → ℚ) (bboxes landmarks : ℕ → ℕ → ℚ)
    (thr : ℚ) (S fs i0 j0 : ℕ) (hfs : S / stride = fs) (hi : i0 < fs) (hj : j0 < fs)
    (h0 : ¬ scores (i0 * fs + j0) < thr)
    (h : ∀ i j, i < fs → j < fs → ¬(i = i0 ∧ j = j0) → scores (i * fs + j) < thr) :
    decode_scale stride scores bboxes landmarks thr S =
      [decodedAt stride scores bboxes landmarks S fs i0 j0] := by
  unfold decode_scale
  rw [hfs]
  refine flatMap_range_single _ fs i0 _ hi ?_ ?_
  · refine filterMap_range_single _ fs j0 _ hj ?_ ?_
    · exact if_neg h0
    · intro j hjfs hne
      exact if_pos (h i0 j hi hjfs (by tauto))
  · intro i hifs hne
    refine filterMap_range_eq_nil _ fs fun j hjfs => ?_
    exact if_pos (h i j hifs hjfs (by tauto))

/-- C1 witness fixture: classification value 2 everywhere, objectness 1,
so the fused raw value is 2 at every location. -/
def fusionCls : Fin 3 → ℕ → ℚ := fun _ _ => 2

/-- C1 witness fixture: objectness value 1 everywhere. -/
def fusionObj : Fin 3 → ℕ → ℚ := fun _ _ => 1

/-- C1 witness fixture: the detection decoded from cell (0,0) of the stride-8
scale on an 8-pixel canvas with all deltas zero. -/
def fusionDet : RawDetection :=
  ⟨⟨0, 0, 0, 0⟩, 2, [(0, 0), (0, 0), (0, 0), (0, 0), (0, 0)]⟩

/-- On an 8-pixel canvas only the stride-8 scale has any grid cell, and with
the witness fixture that single cell decodes (through the fused score maps,
with the identity standing in for the sigmoid) to `fusionDet`. -/
theorem fusion_fixture_decodes :
    decode_detections (detectionScores id fusionCls fusionObj)
      (fun _ _ _ => 0) (fun _ _ _ => 0) 1 8 = [fusionDet] := by
  have hfin : List.finRange 3 = [0, 1, 2] := rfl
  unfold decode_detections
  rw [hfin]
  simp only [List.flatMap_cons, List.flatMap_nil, List.append_nil]
  have h1 : decode_scale (STRIDES 1) (detectionScores id fusionCls fusionObj 1)
      (fun _ _ => 0) (fun _ _ => 0) 1 8 = [] := by
    unfold decode_scale
    rfl
  have h2 : decode_scale (STRIDES 2) (detectionScores id fusionCls fusionObj 2)
      (fun _ _ => 0) (fun _ _ => 0) 1 8 = [] := by
    unfold decode_scale
    rfl
  have h0 : decode_scale (STRIDES 0) (detectionScores id fusionCls fusionObj 0)
      (fun _ _ => 0) (fun _ _ => 0) 1 8 =
      [decodedAt (STRIDES 0) (detectionScores id fusionCls fusionObj 0)
        (fun _ _ => 0) (fun _ _ => 0) 8 1 0 0] := by
    refine decode_scale_single _ _ _ _ _ _ 1 0 0 rfl Nat.one_pos Nat.one_pos ?_ ?_
    · show ¬ ((2 : ℚ) * 1 < 1)
      norm_num
    · intro i j hi hj hne
      omega
  rw [h0, h1, h2, List.append_nil]
  refine congrArg (fun d => [d]) ?_
  unfold decodedAt fusionDet
  simp only [RawDetection.mk.injEq, Box.mk.injEq, detectionScores,
    apply_sigmoid_to_scores, combineScores, fusionCls, fusionObj, id_eq,
    List.range_succ, List.range_zero, List.map_append, List.map_cons,
    List.map_nil, Prod.mk.injEq]
  norm_num

/-- C1 witness: a concrete decoded detection whose score is the single
activation of the raw product, above the threshold. -/
theorem score_fusion_single_sigmoid_witness :
    ∃ (k : Fin 3) (idx : ℕ),
      fusionDet.score = id (fusionCls k idx * fusionObj k idx) ∧
      (1 : ℚ) ≤ fusionDet.score :=
  score_fusion_single_sigmoid.2 id fusionCls fusionObj (fun _ _ _ => 0) (fun _ _ _ => 0)
    1 8 fusionDet (by rw [fusion_fixture_decodes]; exact List.mem_singleton.mpr rfl)

/-- C6 fixture: score 9/10 at location 210 — row 10, col 10 of the 20×20
stride-32 grid — and 0 (below the 1/2 threshold) everywhere else. -/
def c6Scores : Fin 3 → ℕ → ℚ :=
  fun k idx => if k = 2 ∧ idx = 210 then 9/10 else 0

/-- C6 fixture: bbox deltas `(dx, dy, dw, dh) = (0.5, 0.3, 4.0, 4.0)` at every
cell (only the above-threshold cell is ever decoded). -/
def c6Bboxes : Fin 3 → ℕ → ℕ → ℚ :=
  fun _ _ c => if c = 0 then 1/2 else if c = 1 then 3/10 else 4

/-- C6 fixture: all landmark deltas zero. -/
def c6Landmarks : Fin 3 → ℕ → ℕ → ℚ := fun _ _ _ => 0

/-- The detection the C6 fixture decodes to: bbox exactly
`(0.425, 0.415, 0.2, 0.2)`, score 9/10, all landmarks at the cell center. -/
def c6Expected : RawDetection :=
  ⟨⟨17/40, 83/200, 1/5, 1/5⟩, 9/10,
   [(1/2, 1/2), (1/2, 1/2), (1/2, 1/2), (1/2, 1/2), (1/2, 1/2)]⟩

/-- C6: on a 640-pixel canvas with a single above-threshold cell at stride 32,
grid position (10,10), deltas (0.5, 0.3, 4.0, 4.0), the decoder produces
exactly one detection, whose bbox is within 1e-5 of (0.425, 0.415, 0.2, 0.2)
(here exactly equal, because the model computes in ℚ). -/
theorem decode_fixture_stride32 :
    decode_detections c6Scores c6Bboxes c6Landmarks (1/2) 640 = [c6Expected] ∧
    |c6Expected.bbox.x - 425/1000| ≤ 1/100000 ∧
    |c6Expected.bbox.y - 415/1000| ≤ 1/100000 ∧
    |c6Expected.bbox.w - 2/10| ≤ 1/100000 ∧
    |c6Expected.bbox.h - 2/10| ≤ 1/100000 := by
  refine ⟨?_, ?_, ?_, ?_, ?_⟩
  · have hfin : List.finRange 3 = [0, 1, 2] := rfl
    unfold decode_detections
    rw [hfin]
    simp only [List.flatMap_cons, List.flatMap_nil, List.append_nil]
    have h0 : decode_scale (STRIDES 0) (c6Scores 0) (c6Bboxes 0) (c6Landmarks 0)
        (1/2) 640 = [] := by
      refine decode_scale_eq_nil _ _ _ _ _ _ fun idx => ?_
      show (if (0 : Fin 3) = 2 ∧ idx = 210 then (9 : ℚ)/10 else 0) < 1/2
      rw [if_neg fun hc => absurd hc.1 (by decide)]
      norm_num
    have h1 : decode_scale (STRIDES 1) (c6Scores 1) (c6Bboxes 1) (c6Landmarks 1)
        (1/2) 640 = [] := by
      refine decode_scale_eq_nil _ _ _ _ _ _ fun idx => ?_
      show (if (1 : Fin 3) = 2 ∧ idx = 210 then (9 : ℚ)/10 else 0) < 1/2
      rw [if_neg fun hc => absurd hc.1 (by decide)]
      norm_num
    have h2 : decode_scale (STRIDES 2) (c6Scores 2) (c6Bboxes 2) (c6Landmarks 2)
        (1/2) 640 =
        [decodedAt (STRIDES 2) (c6Scores 2) (c6Bboxes 2) (c6Landmarks 2) 640 20 10 10] := by
      refine decode_scale_single _ _ _ _ _ _ 20 10 10 rfl (by omega) (by omega) ?_ ?_
      · show ¬ ((if (2 : Fin 3) = 2 ∧ (10 * 20 + 10 : ℕ) = 210 then (9 : ℚ)/10 else 0) < 1/2)
        rw [if_pos ⟨rfl, by norm_num⟩]
        norm_num
      · intro i j hi hj hne
        show (if (2 : Fin 3) = 2 ∧ i * 20 + j = 210 then (9 : ℚ)/10 else 0) < 1/2
        have hcond : ¬ ((2 : Fin 3) = 2 ∧ i * 20 + j = 210) := by
          rintro ⟨-, h210⟩
          exact hne (by omega)
        rw [if_neg hcond]
        norm_num
    rw [h0, h1, h2]
    simp only [List.nil_append]
    refine congrArg (fun d => [d]) ?_
    unfold decodedAt c6Expected c6Scores c6Bboxes c6Landmarks
    simp only [RawDetection.mk.injEq, Box.mk.injEq, List.range_succ,
      List.range_zero, List.map_append, List.map_cons, List.map_nil,
      List.nil_append, Prod.mk.injEq]
    rw [show STRIDES 2 = 32 from rfl]
    norm_num
  · show |(17 : ℚ)/40 - 425/1000| ≤ 1/100000
    rw [abs_le]
    constructor <;> norm_num
  · show |(83 : ℚ)/200 - 415/1000| ≤ 1/100000
    rw [abs_le]
    constructor <;> norm_num
  · show |(1 : ℚ)/5 - 2/10| ≤ 1/100000
    rw [abs_le]
    constructor <;> norm_num
  · show |(1 : ℚ)/5 - 2/10| ≤ 1/100000
    rw [abs_le]
    constructor <;> norm_num

/-! ## Letterbox preprocessor (`howrs-vision/src/face.rs::detect_faces`,
lines 30-46) -/

/-- The scalars the letterbox set-up of `detect_faces` computes before
resizing and pasting: scale, resized dimensions, and paste offsets. -/
structure LetterboxResult where
  scale : ℚ
  newWidth : ℕ
  newHeight : ℕ
  offsetX : ℕ
  offsetY : ℕ
deriving DecidableEq

/-- Model of the letterbox computation: `scale = 640 / max(w, h)`,
`new_w = (w as f32 * scale) as u32` (the float-to-integer cast truncates
toward zero, which on these non-negative values is the floor), and
`ox = (640 - new_w) / 2` in unsigned integer (floor) division. -/
def letterbox (origWidth origHeight : ℕ) : LetterboxResult :=
  let maxDim := max origWidth origHeight
  let scale : ℚ := (640 : ℚ) / (maxDim : ℚ)
  let newWidth := (⌊(origWidth : ℚ) * scale⌋).toNat
  let newHeight := (⌊(origHeight : ℚ) * scale⌋).toNat
  let offsetX := (640 - newWidth) / 2
  let offsetY := (640 - newHeight) / 2
  ⟨scale, newWidth, newHeight, offsetX, offsetY⟩

/-- An RGB pixel; byte values modelled as rationals. -/
structure Rgb where
  r : ℚ
  g : ℚ
  b : ℚ
deriving DecidableEq

/-- Model of the square canvas of `detect_faces`: `DynamicImage::new_rgb8`
creates a zero-filled image and `imageops::overlay` pastes the resized image
(abstracted as a pixel function, since the resampling filter lives in the
external `image` crate) at the letterbox offsets. -/
def letterboxCanvas (lb : LetterboxResult) (resized : ℕ → ℕ → Rgb) : ℕ → ℕ → Rgb :=
  fun px py =>
    if lb.offsetX ≤ px ∧ px < lb.offsetX + lb.newWidth ∧
       lb.offsetY ≤ py ∧ py < lb.offsetY + lb.newHeight then
      resized (px - lb.offsetX) (py - lb.offsetY)
    else ⟨0, 0, 0⟩

/-- C5 counterexample: for a 523×1000 input the specified rounding gives
`round(523 * 640/1000) = round(334.72) = 335`, but the code truncates and
computes `new_w = 334`. -/
theorem letterbox_round_counterexample :
    (letterbox 523 1000).newWidth = 334 ∧
    round ((523 : ℚ) * ((640 : ℚ) / (1000 : ℚ))) = 335 := by
  constructor
  · show (⌊(523 : ℚ) * ((640 : ℚ) / ((max 523 1000 : ℕ) : ℚ))⌋).toNat = 334
    rw [show ((max 523 1000 : ℕ) : ℚ) = 1000 by norm_num]
    rw [show ⌊(523 : ℚ) * ((640 : ℚ) / (1000 : ℚ))⌋ = 334 by norm_num]
    rfl
  · rw [round_eq]
    norm_num

/-- C5 (amended): the letterbox computes `scale = 640 / max(w, h)`, the resized
dimensions by truncation (not rounding) of `w * scale` and `h * scale`, and
centered floor-division offsets; the resized dimensions never exceed the
canvas, the two pads of each axis differ by at most one pixel, and the canvas is
the zero pixel everywhere outside the pasted rectangle. -/
theorem letterbox_props (w h : ℕ) (hw : 0 < w) (_hh : 0 < h) :
    (letterbox w h).scale = (640 : ℚ) / ((max w h : ℕ) : ℚ) ∧
    (letterbox w h).newWidth = (⌊(w : ℚ) * (letterbox w h).scale⌋).toNat ∧
    (letterbox w h).newHeight = (⌊(h : ℚ) * (letterbox w h).scale⌋).toNat ∧
    (letterbox w h).newWidth ≤ 640 ∧
    (letterbox w h).newHeight ≤ 640 ∧
    (letterbox w h).offsetX = (640 - (letterbox w h).newWidth) / 2 ∧
    (letterbox w h).offsetY = (640 - (letterbox w h).newHeight) / 2 ∧
    ((letterbox w h).offsetX ≤ 640 - (letterbox w h).newWidth - (letterbox w h).offsetX ∧
      640 - (letterbox w h).newWidth - (letterbox w h).offsetX ≤ (letterbox w h).offsetX + 1) ∧
    ((letterbox w h).offsetY ≤ 640 - (letterbox w h).newHeight - (letterbox w h).offsetY ∧
      640 - (letterbox w h).newHeight - (letterbox w h).offsetY ≤ (letterbox w h).offsetY + 1) ∧
    (∀ (resized : ℕ → ℕ → Rgb) (px py : ℕ),
      ¬((letterbox w h).offsetX ≤ px ∧ px < (letterbox w h).offsetX + (letterbox w h).newWidth ∧
        (letterbox w h).offsetY ≤ py ∧ py < (letterbox w h).offsetY + (letterbox w h).newHeight) →
      letterboxCanvas (letterbox w h) resized px py = ⟨0, 0, 0⟩) := by
  have hm : (1 : ℕ) ≤ max w h := le_max_of_le_left hw
  have hmq : (0 : ℚ) < ((max w h : ℕ) : ℚ) := by
    have h1 : ((1 : ℕ) : ℚ) ≤ ((max w h : ℕ) : ℚ) := Nat.one_le_cast.mpr hm
    push_cast at h1 ⊢
    linarith
  have hdim : ∀ d : ℕ, d ≤ max w h → (⌊(d : ℚ) * ((640 : ℚ) / ((max w h : ℕ) : ℚ))⌋).toNat ≤ 640 := by
    intro d hd
    have hdq : (d : ℚ) ≤ ((max w h : ℕ) : ℚ) := Nat.cast_le.mpr hd
    have hscale : (0 : ℚ) ≤ (640 : ℚ) / ((max w h : ℕ) : ℚ) :=
      le_of_lt (div_pos (by norm_num) hmq)
    have hle : (d : ℚ) * ((640 : ℚ) / ((max w h : ℕ) : ℚ)) ≤ 640 := by
      calc (d : ℚ) * ((640 : ℚ) / ((max w h : ℕ) : ℚ))
          ≤ ((max w h : ℕ) : ℚ) * ((640 : ℚ) / ((max w h : ℕ) : ℚ)) :=
            mul_le_mul_of_nonneg_right hdq hscale
        _ = 640 := mul_div_cancel₀ _ (ne_of_gt hmq)
    have hfl : ⌊(d : ℚ) * ((640 : ℚ) / ((max w h : ℕ) : ℚ))⌋ ≤ 640 := by
      calc ⌊(d : ℚ) * ((640 : ℚ) / ((max w h : ℕ) : ℚ))⌋ ≤ ⌊(640 : ℚ)⌋ :=
            Int.floor_le_floor hle
        _ = 640 := by norm_num
    omega
  have hW640 : (letterbox w h).newWidth ≤ 640 := hdim w (le_max_left w h)
  have hH640 : (letterbox w h).newHeight ≤ 640 := hdim h (le_max_right w h)
  have hox : (letterbox w h).offsetX = (640 - (letterbox w h).newWidth) / 2 := rfl
  have hoy : (letterbox w h).offsetY = (640 - (letterbox w h).newHeight) / 2 := rfl
  refine ⟨rfl, rfl, rfl, hW640, hH640, rfl, rfl, ?_, ?_, ?_⟩
  · omega
  · omega
  · intro resized px py hout
    unfold letterboxCanvas
    rw [if_neg hout]

/-- C5 witness: the amended properties at the 523×1000 input of the
counterexample. -/
theorem letterbox_props_witness :
    (letterbox 523 1000).scale = (640 : ℚ) / ((max 523 1000 : ℕ) : ℚ) ∧
    (letterbox 523 1000).newWidth = (⌊(523 : ℚ) * (letterbox 523 1000).scale⌋).toNat ∧
    (letterbox 523 1000).newHeight = (⌊(1000 : ℚ) * (letterbox 523 1000).scale⌋).toNat ∧
    (letterbox 523 1000).newWidth ≤ 640 ∧
    (letterbox 523 1000).newHeight ≤ 640 := by
  obtain ⟨h1, h2, h3, h4, h5, -⟩ := letterbox_props 523 1000 (by norm_num) (by norm_num)
  exact ⟨h1, h2, h3, h4, h5⟩

/-! ## Aligner (`howrs-vision/src/face.rs::align_face`) -/

/-- An image: dimensions plus a total pixel function. -/
structure Image where
  width : ℕ
  height : ℕ
  pix : ℕ → ℕ → Rgb

/-- The real-valued scalar helpers `align_face` takes from the float library,
abstracted as function parameters; no claim below depends on their values. -/
structure RealOps where
  sqrt : ℚ → ℚ
  atan2 : ℚ → ℚ → ℚ
  sin : ℚ → ℚ
  cos : ℚ → ℚ

/-- The alignment failure the error taxonomy of the specification prescribes for
degenerate eye geometry. -/
inductive AlignmentError
  | degenerateEyeGeometry
deriving DecidableEq

/-- The saturating Rust float-to-`u8` cast (floor on the non-negative values
produced by the bilinear weights, clamped into the byte range). -/
def asU8 (q : ℚ) : ℚ := ((min 255 (max 0 ⌊q⌋) : ℤ) : ℚ)

/-- Bilinear interpolation of the four source pixels around `(inX, inY)`,
per channel, as in the inner loop of `align_face`. -/
def bilinearSample (img : Image) (inX inY : ℚ) : Rgb :=
  let x0 := ⌊inX⌋.toNat
  let y0 := ⌊inY⌋.toNat
  let x1 := min (x0 + 1) (img.width - 1)
  let y1 := min (y0 + 1) (img.height - 1)
  let fx := inX - (x0 : ℚ)
  let fy := inY - (y0 : ℚ)
  let p00 := img.pix x0 y0
  let p10 := img.pix x1 y0
  let p01 := img.pix x0 y1
  let p11 := img.pix x1 y1
  let w00 := (1 - fx) * (1 - fy)
  let w10 := fx * (1 - fy)
  let w01 := (1 - fx) * fy
  let w11 := fx * fy
  ⟨asU8 (p00.r * w00 + p10.r * w10 + p01.r * w01 + p11.r * w11),
   asU8 (p00.g * w00 + p10.g * w10 + p01.g * w01 + p11.g * w11),
   asU8 (p00.b * w00 + p10.b * w10 + p01.b * w01 + p11.b * w11)⟩

/-- Model of `face::align_face` (lines 202-320): estimate the similarity
transform from the two eye landmarks, then inversely map every output pixel,
bilinearly sampling inside the source bounds and leaving black outside. The
source contains no error return at all, so the model always ends in
`Except.ok`. Rational division by zero (coincident eyes make
`actual_eye_dist = 0` and `det = 0`) stands in for the float infinities and
NaNs the source produces on that path; no claim depends on the pixel values
there, only on the `ok`/`error` shape of the result. -/
def align_face (ops : RealOps) (img : Image) (detection : Detection) (size : ℕ) :
    Except AlignmentError Image :=
  let refLeftEye : ℚ × ℚ := (383/10, 517/10)
  let refRightEye : ℚ × ℚ := (735/10, 515/10)
  let leftEye := detection.landmarks.getD 0 (0, 0)
  let rightEye := detection.landmarks.getD 1 (0, 0)
  let eyeDx := rightEye.1 - leftEye.1
  let eyeDy := rightEye.2 - leftEye.2
  let eyeAngle := ops.atan2 eyeDy eyeDx
  let refEyeDist := ops.sqrt
    ((refRightEye.1 - refLeftEye.1) ^ 2 + (refRightEye.2 - refLeftEye.2) ^ 2)
  let actualEyeDist := ops.sqrt (eyeDx * eyeDx + eyeDy * eyeDy)
  let scale := ((size : ℚ) / 112) * (refEyeDist / actualEyeDist)
  let eyeCenter := ((leftEye.1 + rightEye.1) / 2, (leftEye.2 + rightEye.2) / 2)
  let refEyeCenter := ((refLeftEye.1 + refRightEye.1) / 2, (refLeftEye.2 + refRightEye.2) / 2)
  let refCenterScaled :=
    (refEyeCenter.1 * (size : ℚ) / 112, refEyeCenter.2 * (size : ℚ) / 112)
  let cosAngle := ops.cos eyeAngle
  let sinAngle := ops.sin eyeAngle
  let a := scale * cosAngle
  let b := scale * sinAngle
  let c := -scale * sinAngle
  let d := scale * cosAngle
  let tx := refCenterScaled.1 - (a * eyeCenter.1 + b * eyeCenter.2)
  let ty := refCenterScaled.2 - (c * eyeCenter.1 + d * eyeCenter.2)
  Except.ok
    { width := size
      height := size
      pix := fun outX outY =>
        let tmpX := (outX : ℚ) - tx
        let tmpY := (outY : ℚ) - ty
        let det := a * d - b * c
        let inX := (d * tmpX - b * tmpY) / det
        let inY := (-c * tmpX + a * tmpY) / det
        if 0 ≤ inX ∧ inX < (img.width : ℚ) ∧ 0 ≤ inY ∧ inY < (img.height : ℚ) then
          bilinearSample img inX inY
        else ⟨0, 0, 0⟩ }

/-- A detection whose two eye landmarks coincide (zero eye separation). -/
def degenerateDet : Detection :=
  ⟨⟨0, 0, 100, 100⟩, 9/10, [(50, 50), (50, 50), (50, 50), (50, 50), (50, 50)]⟩

/-- Concrete instantiation of the abstracted scalar helpers. -/
def zeroOps : RealOps := ⟨fun _ => 0, fun _ _ => 0, fun _ => 0, fun _ => 0⟩

/-- A concrete 100×100 all-black source image. -/
def blackImage : Image := ⟨100, 100, fun _ _ => ⟨0, 0, 0⟩⟩

/-- C2 counterexample: on a face whose two eye landmarks coincide,
`align_face` does not fail — it still returns a successfully resampled image
(`ok`, never `AlignmentError`). -/
theorem align_face_degenerate_no_error :
    (degenerateDet.landmarks.getD 0 (0, 0) = degenerateDet.landmarks.getD 1 (0, 0)) ∧
    (align_face zeroOps blackImage degenerateDet 112).toOption.isSome = true :=
  ⟨rfl, rfl⟩

/-- C2 (amended): `align_face` has no failure path at all: for every input —
degenerate eye geometry included — it returns `ok` with a `size`×`size`
image, dividing by the (possibly zero) eye separation instead of failing. -/
theorem align_face_always_ok (ops : RealOps) (img : Image) (detection : Detection)
    (size : ℕ) :
    ∃ out : Image, align_face ops img detection size = Except.ok out ∧
      out.width = size ∧ out.height = size :=
  ⟨_, rfl, rfl, rfl⟩

/-! ## Scan/decision loops (`src/main.rs::enroll`, `src/main.rs::test`,
`src/pam.rs::run_auth`)

Each loop is modelled as a pure function over the finite list of per-frame
outcomes its budget allows (`max_attempts` frames): what the camera and the
pipeline would deliver on each iteration. -/

/-- Outcome of one enrollment iteration: the camera frame call fails, the
pipeline (`process_image`) fails (e.g. no face), or a face is detected with
the given score. -/
inductive EnrollFrame
  | cameraFail
  | pipelineFail
  | ok (score : ℚ)
deriving DecidableEq

/-- Terminal outcome of `enroll`: the `?` on `camera.frame()` aborts with the
capture error; otherwise either no frame ever produced a detection, or the
best detection is enrolled. -/
inductive EnrollResult
  | cameraError
  | noFace
  | enrolled (best : ℚ)
deriving DecidableEq

/-- Model of the frame loop of `src/main.rs::enroll` (lines 93-126) plus the
final match on the best detection (lines 128-148). `camera.frame()?` aborts
the whole function on a capture error; a `process_image` error is logged and
skipped; a success updates the best score and breaks early past 0.8. -/
def enrollGo : List EnrollFrame → Option ℚ → EnrollResult
  | [], best =>
      match best with
      | some s => EnrollResult.enrolled s
      | none => EnrollResult.noFace
  | EnrollFrame.cameraFail :: _, _ => EnrollResult.cameraError
  | EnrollFrame.pipelineFail :: rest, best => enrollGo rest best
  | EnrollFrame.ok s :: rest, best =>
      let best2 :=
        match best with
        | none => s
        | some b => if b < s then s else b
      if 4/5 < s then EnrollResult.enrolled best2 else enrollGo rest best2

/-- The enrollment loop started with no best detection yet. -/
def enroll (frames : List EnrollFrame) : EnrollResult :=
  enrollGo frames none

/-- Outcome of one authentication iteration: camera failure, pipeline
(`extract_embedding`) failure, or a successfully extracted probe embedding. -/
inductive AuthFrame
  | cameraFail
  | pipelineFail
  | embedding (v : List ℚ)
deriving DecidableEq

/-- Terminal outcome of the CLI authentication loop `src/main.rs::test`. -/
inductive AuthResult
  | cameraError
  | success
  | failure
deriving DecidableEq

/-- Model of the frame loop of `src/main.rs::test` (lines 176-209):
`camera.frame()?` aborts on a capture error; a pipeline error is logged and
skipped; on a probe embedding the best score against the records is computed
and the loop returns success immediately if it reaches the threshold,
otherwise it keeps iterating; an exhausted budget is the failure bail. -/
def authLoop (records : List FaceRecord) (threshold : ℚ) : List AuthFrame → AuthResult
  | [] => AuthResult.failure
  | AuthFrame.cameraFail :: _ => AuthResult.cameraError
  | AuthFrame.pipelineFail :: rest => authLoop records threshold rest
  | AuthFrame.embedding v :: rest =>
      match best_score records v with
      | some s =>
          if threshold ≤ s then AuthResult.success
          else authLoop records threshold rest
      | none => authLoop records threshold rest

/-- Terminal outcome of the PAM entry point `src/pam.rs::run_auth`:
`Ok(true)`, `Ok(false)`, or `Err(_)`. -/
inductive PamResult
  | authOk
  | authReject
  | err
deriving DecidableEq

/-- Model of the scan loop of `src/pam.rs::run_auth` (lines 84-94): both a
camera failure and a pipeline failure are silently skipped (`if let Ok`), and
the loop stops at the first successfully extracted embedding. -/
def runAuthScan : List AuthFrame → Option (List ℚ)
  | [] => none
  | AuthFrame.cameraFail :: rest => runAuthScan rest
  | AuthFrame.pipelineFail :: rest => runAuthScan rest
  | AuthFrame.embedding v :: _ => some v

/-- Model of `src/pam.rs::run_auth` (lines 65-104): reject when no face is
enrolled, error when no frame yields an embedding, otherwise compare the one
best score against the threshold. -/
def run_auth (records : List FaceRecord) (threshold : ℚ) (frames : List AuthFrame) :
    PamResult :=
  if records.isEmpty then PamResult.authReject
  else
    match runAuthScan frames with
    | none => PamResult.err
    | some v =>
        match best_score records v with
        | none => PamResult.err
        | some s => if threshold ≤ s then PamResult.authOk else PamResult.authReject

/-- C3 counterexample: in the enrollment loop a transient camera capture
failure is not logged-and-skipped — it aborts the scan at once, although the
remaining budget would have enrolled the face (second conjunct). -/
theorem scan_loop_camera_abort_counterexample :
    enroll [EnrollFrame.cameraFail, EnrollFrame.ok (9/10)] = EnrollResult.cameraError ∧
    enroll [EnrollFrame.ok (9/10)] = EnrollResult.enrolled (9/10) ∧
    EnrollResult.cameraError ≠ EnrollResult.enrolled (9/10) := by
  refine ⟨rfl, ?_, by simp⟩
  show enrollGo [EnrollFrame.ok (9/10)] none = EnrollResult.enrolled (9/10)
  unfold enrollGo
  rw [if_pos (by norm_num)]

/-- C3 (amended): per-frame pipeline failures are skipped and the loops only
report the terminal no-success error once the budget is exhausted with zero
successes, but a camera capture failure is fatal at once in the CLI loops
(and silently skipped, without log, in the PAM loop). -/
theorem scan_loop_error_handling :
    (∀ (rest : List EnrollFrame) (best : Option ℚ),
      enrollGo (EnrollFrame.pipelineFail :: rest) best = enrollGo rest best) ∧
    (∀ (rest : List EnrollFrame) (best : Option ℚ),
      enrollGo (EnrollFrame.cameraFail :: rest) best = EnrollResult.cameraError) ∧
    (∀ frames : List EnrollFrame,
      (∀ f ∈ frames, f = EnrollFrame.pipelineFail) → enroll frames = EnrollResult.noFace) ∧
    (∀ (records : List FaceRecord) (threshold : ℚ) (rest : List AuthFrame),
      authLoop records threshold (AuthFrame.pipelineFail :: rest) =
        authLoop records threshold rest) ∧
    (∀ (records : List FaceRecord) (threshold : ℚ) (frames : List AuthFrame),
      (∀ f ∈ frames, f = AuthFrame.pipelineFail) →
      authLoop records threshold frames = AuthResult.failure) ∧
    (∀ rest : List AuthFrame,
      runAuthScan (AuthFrame.cameraFail :: rest) = runAuthScan rest) := by
  refine ⟨fun rest best => rfl, fun rest best => rfl, ?_, fun records threshold rest => rfl,
    ?_, fun rest => rfl⟩
  · intro frames hall
    induction frames with
    | nil => rfl
    | cons f rest ih =>
        rw [hall f (List.mem_cons_self f rest)]
        show enrollGo (EnrollFrame.pipelineFail :: rest) none = EnrollResult.noFace
        exact ih fun g hg => hall g (List.mem_cons_of_mem f hg)
  · intro records threshold frames hall
    induction frames with
    | nil => rfl
    | cons f rest ih =>
        rw [hall f (List.mem_cons_self f rest)]
        show authLoop records threshold (AuthFrame.pipelineFail :: rest) = AuthResult.failure
        exact ih fun g hg => hall g (List.mem_cons_of_mem f hg)

/-- C3 witness: the amended error handling on concrete frame lists. -/
theorem scan_loop_error_handling_witness :
    enrollGo [EnrollFrame.pipelineFail] none = enrollGo [] none ∧
    enrollGo [EnrollFrame.cameraFail, EnrollFrame.ok (9/10)] none = EnrollResult.cameraError ∧
    enroll [EnrollFrame.pipelineFail, EnrollFrame.pipelineFail] = EnrollResult.noFace ∧
    runAuthScan [AuthFrame.cameraFail] = runAuthScan [] :=
  ⟨scan_loop_error_handling.1 [] none,
   scan_loop_error_handling.2.1 [EnrollFrame.ok (9/10)] none,
   scan_loop_error_handling.2.2.1 [EnrollFrame.pipelineFail, EnrollFrame.pipelineFail]
     (by intro f hf; rcases List.mem_cons.mp hf with h | h
         · exact h
         · exact List.mem_singleton.mp h),
   scan_loop_error_handling.2.2.2.2.2 []⟩

/-- Unfolding lemma: one embedding iteration of the CLI authentication loop. -/
theorem authLoop_embedding (records : List FaceRecord) (threshold : ℚ) (v : List ℚ)
    (rest : List AuthFrame) :
    authLoop records threshold (AuthFrame.embedding v :: rest) =
      match best_score records v with
      | some s =>
          if threshold ≤ s then AuthResult.success
          else authLoop records threshold rest
      | none => authLoop records threshold rest := rfl

/-- Unfolding lemma: `run_auth` on a non-empty record set whose first frame
already yields an embedding compares that one score with the threshold. -/
theorem run_auth_embedding (r : FaceRecord) (rs : List FaceRecord) (threshold : ℚ)
    (v : List ℚ) (rest : List AuthFrame) :
    run_auth (r :: rs) threshold (AuthFrame.embedding v :: rest) =
      match best_score (r :: rs) v with
      | none => PamResult.err
      | some s => if threshold ≤ s then PamResult.authOk else PamResult.authReject := rfl

/-- Concrete evaluation: a stored `[1]` against probe `[0]` scores 0. -/
theorem best_score_single_low : best_score [⟨"r", [1]⟩] [0] = some 0 := by
  have hm : match_embedding [(1 : ℚ)] [(0 : ℚ)] = 0 := by
    rw [match_embedding_eq_clamp]
    norm_num [dotProduct]
  unfold best_score
  simp only [List.map_cons, List.map_nil, List.foldl_cons, List.foldl_nil]
  show some (match_embedding [(1 : ℚ)] [(0 : ℚ)]) = some 0
  rw [hm]

/-- Concrete evaluation: a stored `[1]` against probe `[1]` scores 1. -/
theorem best_score_single_high : best_score [⟨"r", [1]⟩] [1] = some 1 := by
  have hm : match_embedding [(1 : ℚ)] [(1 : ℚ)] = 1 := by
    rw [match_embedding_eq_clamp]
    norm_num [dotProduct]
  unfold best_score
  simp only [List.map_cons, List.map_nil, List.foldl_cons, List.foldl_nil]
  show some (match_embedding [(1 : ℚ)] [(1 : ℚ)]) = some 1
  rw [hm]

/-- C4 counterexample: with a below-threshold first frame and an
above-threshold second frame, the PAM loop `run_auth` (cited by the claim)
stops at the first successful embedding and rejects instead of iterating on —
the second frame alone authenticates, and the CLI loop on the same frames
succeeds. -/
theorem auth_loop_early_stop_counterexample :
    run_auth [⟨"r", [1]⟩] (1/2)
      [AuthFrame.embedding [0], AuthFrame.embedding [1]] = PamResult.authReject ∧
    run_auth [⟨"r", [1]⟩] (1/2) [AuthFrame.embedding [1]] = PamResult.authOk ∧
    authLoop [⟨"r", [1]⟩] (1/2)
      [AuthFrame.embedding [0], AuthFrame.embedding [1]] = AuthResult.success := by
  refine ⟨?_, ?_, ?_⟩
  · rw [run_auth_embedding, best_score_single_low]
    show (if (1 : ℚ)/2 ≤ 0 then PamResult.authOk else PamResult.authReject) = _
    rw [if_neg (by norm_num)]
  · rw [run_auth_embedding, best_score_single_high]
    show (if (1 : ℚ)/2 ≤ 1 then PamResult.authOk else PamResult.authReject) = _
    rw [if_pos (by norm_num)]
  · rw [authLoop_embedding, best_score_single_low]
    show (if (1 : ℚ)/2 ≤ 0 then AuthResult.success
      else authLoop [⟨"r", [1]⟩] (1/2) [AuthFrame.embedding [1]]) = _
    rw [if_neg (by norm_num), authLoop_embedding, best_score_single_high]
    show (if (1 : ℚ)/2 ≤ 1 then AuthResult.success
      else authLoop [⟨"r", [1]⟩] (1/2) []) = _
    rw [if_pos (by norm_num)]

/-- C4 (amended): the CLI authentication loop computes `best_score` for every
successful frame, succeeds immediately at or above the threshold, keeps
iterating below it and fails only at budget exhaustion; the PAM loop
`run_auth` instead stops at its first successful embedding and decides from
that single comparison. -/
theorem auth_threshold_loop :
    (∀ (records : List FaceRecord) (threshold : ℚ) (v : List ℚ)
      (rest : List AuthFrame) (s : ℚ), best_score records v = some s → threshold ≤ s →
      authLoop records threshold (AuthFrame.embedding v :: rest) = AuthResult.success) ∧
    (∀ (records : List FaceRecord) (threshold : ℚ) (v : List ℚ)
      (rest : List AuthFrame) (s : ℚ), best_score records v = some s → s < threshold →
      authLoop records threshold (AuthFrame.embedding v :: rest) =
        authLoop records threshold rest) ∧
    (∀ (records : List FaceRecord) (threshold : ℚ),
      authLoop records threshold [] = AuthResult.failure) ∧
    (∀ (r : FaceRecord) (rs : List FaceRecord) (threshold : ℚ) (v : List ℚ)
      (rest : List AuthFrame) (s : ℚ), best_score (r :: rs) v = some s →
      run_auth (r :: rs) threshold (AuthFrame.embedding v :: rest) =
        if threshold ≤ s then PamResult.authOk else PamResult.authReject) := by
  refine ⟨?_, ?_, fun records threshold => rfl, ?_⟩
  · intro records threshold v rest s hbs hth
    rw [authLoop_embedding, hbs]
    exact if_pos hth
  · intro records threshold v rest s hbs hth
    rw [authLoop_embedding, hbs]
    exact if_neg (not_le.mpr hth)
  · intro r rs threshold v rest s hbs
    rw [run_auth_embedding, hbs]

/-- C4 witness: the amended loop behaviour at concrete records, threshold and
frames. -/
theorem auth_threshold_loop_witness :
    authLoop [⟨"r", [1]⟩] (1/2) [AuthFrame.embedding [1]] = AuthResult.success ∧
    authLoop [⟨"r", [1]⟩] (1/2) [AuthFrame.embedding [0], AuthFrame.embedding [1]] =
      authLoop [⟨"r", [1]⟩] (1/2) [AuthFrame.embedding [1]] ∧
    authLoop [⟨"r", [1]⟩] (1/2) [] = AuthResult.failure ∧
    run_auth [⟨"r", [1]⟩] (1/2) [AuthFrame.embedding [1], AuthFrame.embedding [0]] =
      (if (1 : ℚ)/2 ≤ 1 then PamResult.authOk else PamResult.authReject) :=
  ⟨auth_threshold_loop.1 _ _ _ _ 1 best_score_single_high (by norm_num),
   auth_threshold_loop.2.1 _ _ _ _ 0 best_score_single_low (by norm_num),
   auth_threshold_loop.2.2.1 _ _,
   auth_threshold_loop.2.2.2 _ _ _ _ _ 1 best_score_single_high⟩

end Howrs
